import Mathlib

/-!
Shallow embedding of the `mgo` package (a generic MongoDB data-access
helper layer): the BSON document model, the call-scoped `option` record
built by folding option mutators, the update/soft-delete stamping
transforms, the entity envelope attached on insert, and the
environment-sourced configuration loader.

Go's `time.Now()` is modelled by explicit timestamp arguments drawn from a
monotone clock; `bson.M` (an unordered string-keyed map) is modelled as an
association list observed only through key lookup; a Go panic (the
unchecked type assertion in `setUpdate`) is modelled as `Option.none`.
-/

set_option autoImplicit false

namespace Mgo

/-- The values a BSON document field can hold, as used by this package:
null, strings, 64-bit integers, timestamps (`time.Time`, modelled as a
`Nat` tick), object identifiers (byte lists), sub-documents (`bson.M`) and
arrays. -/
inductive BVal where
  | null : BVal
  | str : String → BVal
  | i64 : Int → BVal
  | time : Nat → BVal
  | oid : List Nat → BVal
  | doc : List (String × BVal) → BVal
  | arr : List BVal → BVal

/-- A `bson.M` document: a string-keyed map, modelled as an association
list with unique keys maintained by `bsetKey`. -/
abbrev BsonM : Type := List (String × BVal)

/-- Map lookup `m[k]` on a `bson.M`. -/
def blookup (k : String) : BsonM → Option BVal
  | [] => none
  | (k', v) :: rest => if k' = k then some v else blookup k rest

/-- Map assignment `m[k] = v` on a `bson.M`: replaces the binding of `k`
if present, otherwise appends it. -/
def bsetKey : BsonM → String → BVal → BsonM
  | [], k, v => [(k, v)]
  | (k', v') :: rest, k, v => if k' = k then (k, v) :: rest else (k', v') :: bsetKey rest k v

theorem blookup_bsetKey_self (m : BsonM) (k : String) (v : BVal) :
    blookup k (bsetKey m k v) = some v := by
  induction m with
  | nil => simp [bsetKey, blookup]
  | cons hd tl ih =>
    obtain ⟨k0, v0⟩ := hd
    by_cases h : k0 = k
    · simp [bsetKey, blookup, h]
    · simp [bsetKey, blookup, h, ih]

theorem blookup_bsetKey_other (m : BsonM) (k k' : String) (v : BVal) (hne : k' ≠ k) :
    blookup k' (bsetKey m k v) = blookup k' m := by
  induction m with
  | nil => simp [bsetKey, blookup, Ne.symm hne]
  | cons hd tl ih =>
    obtain ⟨k0, v0⟩ := hd
    by_cases h : k0 = k
    · subst h
      simp [bsetKey, blookup, Ne.symm hne]
    · by_cases h2 : k0 = k'
      · simp [bsetKey, blookup, h, h2, hne]
      · simp [bsetKey, blookup, h, h2, ih]

/-- The `option` record of `collection.go`: the call-scoped configuration
container with seven independent fields. Go's nilable `bson.M` fields are
`Option BsonM` (`none` is Go `nil`), `Pipeline` is a slice, and `Skip`,
`Limit` are nilable `*int64` pointers. -/
structure option where
  Filter : Option BsonM := none
  Update : Option BsonM := none
  «Sort» : Option BsonM := none
  Projection : Option BsonM := none
  Pipeline : List BsonM := []
  Skip : Option Int := none
  Limit : Option Int := none

/-- The zero value `option{}` allocated by `bindOptions`. -/
def zeroOption : option := {}

/-- An option mutator (`Option func(*option)` in `collection.go`,
`SetOption` in the bare-document tier): callers construct closures that
assign one field of the bound `option`; each mutator is modelled as the
field assignment it performs. -/
inductive SetOption where
  | setFilter : BsonM → SetOption
  | setUpdateDoc : BsonM → SetOption
  | setSort : BsonM → SetOption
  | setProjection : BsonM → SetOption
  | setPipeline : List BsonM → SetOption
  | setSkip : Int → SetOption
  | setLimit : Int → SetOption

/-- The seven fields of `option`, used to say which field a mutator
targets. -/
inductive FieldTag where
  | filter | update | sort | projection | pipeline | skip | limit
deriving DecidableEq

/-- The field a mutator assigns. -/
def mutTarget : SetOption → FieldTag
  | .setFilter _ => .filter
  | .setUpdateDoc _ => .update
  | .setSort _ => .sort
  | .setProjection _ => .projection
  | .setPipeline _ => .pipeline
  | .setSkip _ => .skip
  | .setLimit _ => .limit

/-- Running one mutator on the bound `option` (the call `option(opt)` in
`bindOptions`). -/
def applyOpt (o : option) : SetOption → option
  | .setFilter f => { o with Filter := some f }
  | .setUpdateDoc u => { o with Update := some u }
  | .setSort s => { o with «Sort» := some s }
  | .setProjection p => { o with Projection := some p }
  | .setPipeline p => { o with Pipeline := p }
  | .setSkip n => { o with Skip := some n }
  | .setLimit n => { o with Limit := some n }

/-- The `bindOptions` function of `collection.go`: fold the mutator
sequence over a zero-valued `option`. -/
def bindOptions (ms : List SetOption) : option :=
  ms.foldl applyOpt zeroOption

/-- The `option.setUpdate` method: initialize a nil `Update`, then either
create `Update["$set"] = bson.M{"updated_at": now}` when no `$set` entry
exists, or merge `updated_at = now` into the existing `$set` map. The
unchecked Go type assertion `val.(bson.M)` panics when the `$set` entry is
not a sub-document; the panic is `none`. -/
def setUpdate (now : Nat) (o : option) : Option option :=
  let u := o.Update.getD []
  match blookup "$set" u with
  | none => some { o with Update := some (bsetKey u "$set" (.doc [("updated_at", .time now)])) }
  | some (.doc s) =>
      some { o with Update := some (bsetKey u "$set" (.doc (bsetKey s "updated_at" (.time now)))) }
  | some _ => none

/-- The `option.setSoftDelete` method: initialize a nil `Update`, then
unconditionally assign `Update["$set"] = bson.M{"deleted_at": now}`. -/
def setSoftDelete (now : Nat) (o : option) : option :=
  { o with Update := some (bsetKey (o.Update.getD []) "$set" (.doc [("deleted_at", .time now)])) }

/-- The store-facing `options.FindOptions` fields this package populates
(`Sort`, `Skip`, `Limit`, `Projection`; every other driver field is left
at its zero value). -/
structure FindOptions where
  «Sort» : Option BsonM
  Skip : Option Int
  Limit : Option Int
  Projection : Option BsonM

/-- The `option.findOptions` method: the pure projection of four `option`
fields into the driver's find-options shape. -/
def findOptions (o : option) : FindOptions :=
  { «Sort» := o.«Sort», Skip := o.Skip, Limit := o.Limit, Projection := o.Projection }

/-- Arguments `collection.UpdateOne` submits to the store
(`c.Collection.UpdateOne(ctx, opt.Filter, opt.Update)`), after binding the
mutators and applying the update stamp exactly once; `none` is the panic
of the unchecked type assertion inside `setUpdate`. -/
def updateOneCall (now : Nat) (ms : List SetOption) : Option (Option BsonM × Option BsonM) :=
  (setUpdate now (bindOptions ms)).map fun o => (o.Filter, o.Update)

/-- Arguments `collection.UpdateMany` submits to the store; the code path
is identical to `UpdateOne` up to the final driver call. -/
def updateManyCall (now : Nat) (ms : List SetOption) : Option (Option BsonM × Option BsonM) :=
  (setUpdate now (bindOptions ms)).map fun o => (o.Filter, o.Update)

/-- Arguments `collection.SoftDeleteOne` submits to the store
(`c.Collection.UpdateOne(ctx, opt.Filter, opt.Update)` after
`opt.setSoftDelete()`). -/
def softDeleteOneCall (now : Nat) (ms : List SetOption) : Option BsonM × Option BsonM :=
  let o := setSoftDelete now (bindOptions ms)
  (o.Filter, o.Update)

/-- Arguments `collection.SoftDeleteMany` submits to the store. -/
def softDeleteManyCall (now : Nat) (ms : List SetOption) : Option BsonM × Option BsonM :=
  let o := setSoftDelete now (bindOptions ms)
  (o.Filter, o.Update)

/-- The query `collection.FindOne` submits to the store: only
`opt.Filter` is passed (`c.Collection.FindOne(ctx, opt.Filter)`). -/
def findOneCall (ms : List SetOption) : Option BsonM :=
  (bindOptions ms).Filter

/-- Arguments `collection.FindMany` submits to the store
(`c.Collection.Find(ctx, opt.Filter, opt.findOptions())`). -/
def findManyCall (ms : List SetOption) : Option BsonM × FindOptions :=
  let o := bindOptions ms
  (o.Filter, findOptions o)

/-- A monotone clock, modelling Go's `time.Now()`: the `k`-th call of the
process returns `times k`; successive readings never decrease (Go's
monotonic clock reading), though two calls may well return distinct
instants. -/
structure Clock where
  times : Nat → Nat
  mono : ∀ i j : Nat, i ≤ j → times i ≤ times j

/-- A clock whose `k`-th reading is the tick `k` itself; its readings are
nondecreasing, so it is a legitimate `Clock`. -/
def tickClock : Clock :=
  { times := fun k => k, mono := fun _ _ h => h }

/-- Serialization of a `Nat` into `n` big-endian bytes, as the driver lays
out the pieces of an ObjectID. -/
def natToBytes : Nat → Nat → List Nat
  | 0, _ => []
  | n + 1, x => natToBytes n (x / 256) ++ [x % 256]

theorem natToBytes_length (n x : Nat) : (natToBytes n x).length = n := by
  induction n generalizing x with
  | zero => simp [natToBytes]
  | succ n ih => simp [natToBytes, ih]

/-- The driver's `primitive.NewObjectID()`: a 12-byte identifier made of a
4-byte timestamp, a 5-byte process-random value, and a 3-byte counter. -/
def NewObjectID (ts rnd ctr : Nat) : List Nat :=
  natToBytes 4 ts ++ natToBytes 5 rnd ++ natToBytes 3 ctr

/-- The `Entity` struct of `collection.go`: identifier, creation and
update timestamps, and the optional deletion timestamp (`nil` when the
record is not soft-deleted). -/
structure Entity where
  ID : List Nat
  CreatedAt : Nat
  UpdatedAt : Nat
  DeletedAt : Option Nat

/-- The anonymous composite struct built by `newRecord`: the `Entity`
envelope inlined next to the caller's value. -/
structure Record (α : Type) where
  E : Entity
  V : α

/-- The `newRecord` function: wrap a caller value in a fresh envelope.
The Go struct literal evaluates `primitive.NewObjectID()`, then
`time.Now()` for `CreatedAt`, then a second `time.Now()` for `UpdatedAt`,
in source order; the two clock reads are calls `k` and `k + 1`, and
`DeletedAt` is left `nil`. -/
def newRecord {α : Type} (ts rnd ctr : Nat) (c : Clock) (k : Nat) (v : α) : Record α :=
  { E := { ID := NewObjectID ts rnd ctr
         , CreatedAt := c.times k
         , UpdatedAt := c.times (k + 1)
         , DeletedAt := none }
  , V := v }

/-- The document submitted by `collection.InsertOne`:
`c.Collection.InsertOne(ctx, newRecord(model))`. -/
def insertOneDoc {α : Type} (ts rnd ctr : Nat) (c : Clock) (k : Nat) (v : α) : Record α :=
  newRecord ts rnd ctr c k v

/-- The documents submitted by `collection.InsertMany`: each model is
wrapped by `newRecord` in order; the `i`-th wrap draws a fresh ObjectID
from the seed stream and performs the next two clock reads. -/
def insertManyDocs {α : Type} (seeds : Nat → Nat × Nat × Nat) (c : Clock) (k : Nat) :
    List α → List (Record α)
  | [] => []
  | v :: vs =>
      newRecord (seeds 0).1 (seeds 0).2.1 (seeds 0).2.2 c k v ::
        insertManyDocs (fun i => seeds (i + 1)) c (k + 2) vs

/-- BSON marshalling of the `DeletedAt : *time.Time` field: the tag
`bson:"deleted_at"` has no `omitempty`, so a nil pointer marshals to
null. -/
def deletedAtBson : Option Nat → BVal
  | none => .null
  | some t => .time t

/-- BSON marshalling of a wrapped record, per the struct tags of `Entity`
(`_id`, `created_at`, `update_at`, `deleted_at`) and the two `,inline`
tags of `newRecord`: the envelope fields and the caller value's own
fields sit at the same document level. -/
def recordDoc (r : Record BsonM) : BsonM :=
  ("_id", .oid r.E.ID)
    :: ("created_at", .time r.E.CreatedAt)
    :: ("update_at", .time r.E.UpdatedAt)
    :: ("deleted_at", deletedAtBson r.E.DeletedAt)
    :: r.V

/-- Equality test on BSON values, used to model the store's equality
matching of filter fields against stored documents. -/
def bvalBeq : BVal → BVal → Bool
  | .null, .null => true
  | .str a, .str b => a == b
  | .i64 a, .i64 b => a == b
  | .time a, .time b => a == b
  | .oid a, .oid b => a == b
  | .doc a, .doc b => bentsBeq a b
  | .arr a, .arr b => barrBeq a b
  | _, _ => false
where
  bentsBeq : List (String × BVal) → List (String × BVal) → Bool
    | [], [] => true
    | (k, v) :: r, (k', v') :: r' => k == k' && bvalBeq v v' && bentsBeq r r'
    | _, _ => false
  barrBeq : List BVal → List BVal → Bool
    | [], [] => true
    | v :: r, v' :: r' => bvalBeq v v' && barrBeq r r'
    | _, _ => false

/-- Whether a stored document satisfies a filter: every field of the
filter document is present in the stored document with an equal value (an
empty or nil filter matches everything). -/
def docMatches (f : Option BsonM) (d : BsonM) : Bool :=
  (f.getD []).all fun kv =>
    match blookup kv.1 d with
    | some v => bvalBeq kv.2 v
    | none => false

/-- The store side of `c.Collection.FindOne(ctx, filter)`: the first
stored document matching the filter, if any. -/
def storeFindOne (docs : List BsonM) (f : Option BsonM) : Option BsonM :=
  docs.find? (docMatches f)

/-- Errors surfaced by the driver on the single-result path. -/
inductive MgoErr where
  | errNoDocuments
  | driverErr : String → MgoErr
deriving DecidableEq

/-- The driver's `SingleResult.Decode`: with no matching document it
returns `mongo.ErrNoDocuments` and leaves the decode target at its zero
value; otherwise it decodes the document and returns no error. -/
def decodeSingleResult (res : Option BsonM) : BsonM × Option MgoErr :=
  match res with
  | none => ([], some .errNoDocuments)
  | some d => (d, none)

/-- The full `collection.FindOne` path against an in-memory store: bind
the mutators, submit only the bound Filter, decode the single result, and
return the (always non-nil) model pointer's content together with the
decode error. -/
def findOneResult (docs : List BsonM) (ms : List SetOption) : BsonM × Option MgoErr :=
  decodeSingleResult (storeFindOne docs (findOneCall ms))

/-- A process environment: the partial map consulted by `envconfig`. -/
def Env : Type := String → Option String

/-- A lookup by `envconfig` for a tagged field: the prefixed key
(`MGO_` + tag) first, then the bare tag as fallback. -/
def envLookup (env : Env) (pfx key : String) : Option String :=
  match env (pfx ++ "_" ++ key) with
  | some v => some v
  | none => env key

/-- One field specification gathered by `envconfig` from the struct tags
of `config`: the tag key plus whether a `required:"true"` tag is present
(none of the five fields of `config` carries one). -/
structure fieldSpec where
  key : String
  required : Bool

/-- Processing of one string field by `envconfig.Process`: a present
value is taken verbatim; an absent value fails only when the field is
marked required, and otherwise leaves the field at its zero value `""`. -/
def processField (env : Env) (pfx : String) (fs : fieldSpec) : Except String String :=
  match envLookup env pfx fs.key with
  | some v => .ok v
  | none =>
      if fs.required then .error ("required key " ++ fs.key ++ " missing")
      else .ok ""

/-- The `config` struct of `mgo.go`: the five environment-sourced
connection values. -/
structure config where
  Addrs : String
  Name : String
  AuthSource : String
  User : String
  Password : String
deriving DecidableEq

/-- The `envconfig.Process("MGO", cfg)` call specialized to `config`:
process the five fields in struct order with their tag data — each field
carries only an `envconfig:"KEY"` tag, no `required` and no `default`
tag — failing on the first field error (which can only come from a
required field). -/
def envconfigProcess (pfx : String) (env : Env) : Except String config :=
  match processField env pfx { key := "ADDRS", required := false } with
  | .error e => .error e
  | .ok addrs =>
    match processField env pfx { key := "NAME", required := false } with
    | .error e => .error e
    | .ok name =>
      match processField env pfx { key := "AUTH_SOURCE", required := false } with
      | .error e => .error e
      | .ok authSource =>
        match processField env pfx { key := "USER", required := false } with
        | .error e => .error e
        | .ok user =>
          match processField env pfx { key := "PASSWORD", required := false } with
          | .error e => .error e
          | .ok password =>
            .ok { Addrs := addrs, Name := name, AuthSource := authSource
                , User := user, Password := password }

/-- The `readConfig` function of `mgo.go`: `envconfig.MustProcess("MGO",
cfg)` panics on a processing error (`none`) and otherwise returns the
populated struct. -/
def readConfig (env : Env) : Option config :=
  (envconfigProcess "MGO" env).toOption

/-- The split of Go's `strings.Split(s, ",")` on the character list of
`s`: an empty input yields one empty piece, and each comma starts a new
piece. -/
def splitCommaChars : List Char → List (List Char)
  | [] => [[]]
  | c :: rest =>
      if c = ',' then [] :: splitCommaChars rest
      else
        match splitCommaChars rest with
        | [] => [[c]]
        | p :: ps => (c :: p) :: ps

/-- Go's `strings.Split(s, ",")`, as `connect` applies it to `Addrs`. -/
def splitComma (s : String) : List String :=
  (splitCommaChars s.data).map fun l => String.mk l

/-- The client options `connect` assembles before dialling: the host list
split from `Addrs` on commas, the two fixed 5-second timeouts, and the
credential record. -/
structure clientOpts where
  hosts : List String
  connectTimeoutSecs : Nat
  socketTimeoutSecs : Nat
  authSource : String
  username : String
  password : String
deriving DecidableEq

/-- The pre-network phase of `connect`: read the configuration, then
build the client options that the subsequent `mongo.Connect` network
attempt receives; `none` only if `readConfig` panics. -/
def connectOpts (env : Env) : Option clientOpts :=
  (readConfig env).map fun cfg =>
    { hosts := splitComma cfg.Addrs
    , connectTimeoutSecs := 5
    , socketTimeoutSecs := 5
    , authSource := cfg.AuthSource
    , username := cfg.User
    , password := cfg.Password }

theorem applyOpt_comm (o : option) (m1 m2 : SetOption) (h : mutTarget m1 ≠ mutTarget m2) :
    applyOpt (applyOpt o m1) m2 = applyOpt (applyOpt o m2) m1 := by
  cases m1 <;> cases m2 <;> first | exact absurd rfl h | rfl

theorem applyOpt_lww (o : option) (m1 m2 : SetOption) (h : mutTarget m1 = mutTarget m2) :
    applyOpt (applyOpt o m1) m2 = applyOpt o m2 := by
  cases m1 <;> cases m2 <;> first | rfl | simp [mutTarget] at h

theorem foldl_applyOpt_swap (ms : List SetOption) (m : SetOption) (o : option)
    (h : ∀ m' ∈ ms, mutTarget m ≠ mutTarget m') :
    ms.foldl applyOpt (applyOpt o m) = applyOpt (ms.foldl applyOpt o) m := by
  induction ms generalizing o with
  | nil => rfl
  | cons a as ih =>
    simp only [List.foldl_cons]
    rw [applyOpt_comm o m a (h a (by simp))]
    exact ih (applyOpt o a) fun m' hm' => h m' (by simp [hm'])

theorem foldl_foldl_comm (ms1 ms2 : List SetOption) (o : option)
    (h : ∀ a ∈ ms1, ∀ b ∈ ms2, mutTarget a ≠ mutTarget b) :
    List.foldl applyOpt (List.foldl applyOpt o ms1) ms2
      = List.foldl applyOpt (List.foldl applyOpt o ms2) ms1 := by
  induction ms1 generalizing o with
  | nil => rfl
  | cons a as ih =>
    simp only [List.foldl_cons]
    rw [ih (applyOpt o a) fun x hx => h x (by simp [hx])]
    rw [foldl_applyOpt_swap ms2 a o fun m' hm' => h a (by simp) m' hm']

/-- Claim C4: `bindOptions` folds the mutator sequence, in order, over a
zero-valued `option` whose seven fields are all empty or absent; mutator
sequences with disjoint targets commute, and two mutators targeting the
same field leave only the last writer's value, with no merging. -/
theorem bindOptions_semantics (ms1 ms2 : List SetOption) (m1 m2 : SetOption)
    (hdisj : ∀ a ∈ ms1, ∀ b ∈ ms2, mutTarget a ≠ mutTarget b)
    (hsame : mutTarget m1 = mutTarget m2) :
    (bindOptions ms1 = ms1.foldl applyOpt zeroOption
      ∧ zeroOption.Filter = none ∧ zeroOption.Update = none ∧ zeroOption.«Sort» = none
      ∧ zeroOption.Projection = none ∧ zeroOption.Pipeline = [] ∧ zeroOption.Skip = none
      ∧ zeroOption.Limit = none)
    ∧ bindOptions (ms1 ++ ms2) = bindOptions (ms2 ++ ms1)
    ∧ bindOptions (ms1 ++ [m1, m2]) = bindOptions (ms1 ++ [m2]) := by
  refine ⟨⟨rfl, rfl, rfl, rfl, rfl, rfl, rfl, rfl⟩, ?_, ?_⟩
  · simp only [bindOptions, List.foldl_append]
    exact foldl_foldl_comm ms1 ms2 zeroOption hdisj
  · simp only [bindOptions, List.foldl_append, List.foldl_cons, List.foldl_nil]
    rw [applyOpt_lww _ m1 m2 hsame]

/-- Spot check of `bindOptions_semantics` on concrete mutator sequences
targeting disjoint fields and on two limit mutators. -/
theorem bindOptions_semantics_spot :
    bindOptions ([SetOption.setFilter [("a", BVal.i64 1)]] ++ [SetOption.setSkip 2])
      = bindOptions ([SetOption.setSkip 2] ++ [SetOption.setFilter [("a", BVal.i64 1)]])
    ∧ bindOptions ([SetOption.setFilter [("a", BVal.i64 1)]]
        ++ [SetOption.setLimit 3, SetOption.setLimit 4])
      = bindOptions ([SetOption.setFilter [("a", BVal.i64 1)]] ++ [SetOption.setLimit 4]) :=
  ⟨(bindOptions_semantics [.setFilter [("a", .i64 1)]] [.setSkip 2] (.setLimit 3) (.setLimit 4)
      (by decide) (by decide)).2.1,
   (bindOptions_semantics [.setFilter [("a", .i64 1)]] [.setSkip 2] (.setLimit 3) (.setLimit 4)
      (by decide) (by decide)).2.2⟩

theorem applyOpt_filter_ne (o : option) (m : SetOption) (h : mutTarget m ≠ .filter) :
    (applyOpt o m).Filter = o.Filter := by
  cases m <;> first | exact absurd rfl h | rfl

theorem applyOpt_skip_ne (o : option) (m : SetOption) (h : mutTarget m ≠ .skip) :
    (applyOpt o m).Skip = o.Skip := by
  cases m <;> first | exact absurd rfl h | rfl

theorem applyOpt_limit_ne (o : option) (m : SetOption) (h : mutTarget m ≠ .limit) :
    (applyOpt o m).Limit = o.Limit := by
  cases m <;> first | exact absurd rfl h | rfl

theorem foldl_skip_none (ms : List SetOption) (o : option)
    (h : ∀ m ∈ ms, mutTarget m ≠ .skip) :
    (ms.foldl applyOpt o).Skip = o.Skip := by
  induction ms generalizing o with
  | nil => rfl
  | cons a as ih =>
    simp only [List.foldl_cons]
    rw [ih (applyOpt o a) fun m hm => h m (by simp [hm])]
    exact applyOpt_skip_ne o a (h a (by simp))

theorem foldl_limit_none (ms : List SetOption) (o : option)
    (h : ∀ m ∈ ms, mutTarget m ≠ .limit) :
    (ms.foldl applyOpt o).Limit = o.Limit := by
  induction ms generalizing o with
  | nil => rfl
  | cons a as ih =>
    simp only [List.foldl_cons]
    rw [ih (applyOpt o a) fun m hm => h m (by simp [hm])]
    exact applyOpt_limit_ne o a (h a (by simp))

/-- Claim C6: the derived find parameters are the pure projection of the
bound option's `Sort`, `Skip`, `Limit` and `Projection` fields; `Skip` or
`Limit` never set by a mutator stays absent (`none`, not zero), and
`FindMany` submits the derived parameters together with the Filter. -/
theorem findMany_derived_params (ms : List SetOption)
    (hskip : ∀ m ∈ ms, mutTarget m ≠ .skip)
    (hlimit : ∀ m ∈ ms, mutTarget m ≠ .limit) :
    findManyCall ms = ((bindOptions ms).Filter, findOptions (bindOptions ms))
    ∧ findOptions (bindOptions ms)
        = { «Sort» := (bindOptions ms).«Sort», Skip := (bindOptions ms).Skip
          , Limit := (bindOptions ms).Limit, Projection := (bindOptions ms).Projection }
    ∧ (findOptions (bindOptions ms)).Skip = none
    ∧ (findOptions (bindOptions ms)).Limit = none := by
  refine ⟨rfl, rfl, ?_, ?_⟩
  · exact foldl_skip_none ms zeroOption hskip
  · exact foldl_limit_none ms zeroOption hlimit

/-- Spot check of `findMany_derived_params`: a sort and a projection
mutator leave the derived offset and row cap absent. -/
theorem findMany_derived_params_spot :
    (findOptions (bindOptions [SetOption.setSort [("a", BVal.i64 1)],
        SetOption.setProjection [("b", BVal.i64 1)]])).Skip = none
    ∧ (findOptions (bindOptions [SetOption.setSort [("a", BVal.i64 1)],
        SetOption.setProjection [("b", BVal.i64 1)]])).Limit = none :=
  ⟨(findMany_derived_params [.setSort [("a", .i64 1)], .setProjection [("b", .i64 1)]]
      (by decide) (by decide)).2.2.1,
   (findMany_derived_params [.setSort [("a", .i64 1)], .setProjection [("b", .i64 1)]]
      (by decide) (by decide)).2.2.2⟩

/-- Claim C10: `FindOne` consults only the bound option's Filter: two
mutator sequences whose bound options agree on Filter submit identical
queries, and appending any mutator that does not target Filter leaves the
submitted query unchanged. -/
theorem findOne_filter_only (ms1 ms2 : List SetOption) (m : SetOption)
    (hagree : (bindOptions ms1).Filter = (bindOptions ms2).Filter)
    (hm : mutTarget m ≠ .filter) :
    findOneCall ms1 = findOneCall ms2
    ∧ findOneCall (ms1 ++ [m]) = findOneCall ms1 := by
  refine ⟨hagree, ?_⟩
  simp only [findOneCall, bindOptions, List.foldl_append, List.foldl_cons, List.foldl_nil]
  exact applyOpt_filter_ne _ m hm

/-- Spot check of `findOne_filter_only`: a sort mutator does not change
the query `FindOne` submits. -/
theorem findOne_filter_only_spot :
    findOneCall ([SetOption.setFilter [("a", BVal.i64 1)]] ++ [SetOption.setSort [("b", BVal.i64 1)]])
      = findOneCall [SetOption.setFilter [("a", BVal.i64 1)]] :=
  (findOne_filter_only [.setFilter [("a", .i64 1)]] [.setFilter [("a", .i64 1)]]
      (.setSort [("b", .i64 1)]) rfl (by decide)).2

theorem setUpdate_ok (now : Nat) (o : option) (f : Option BsonM) (u' : BsonM)
    (h : (setUpdate now o).map (fun r => (r.Filter, r.Update)) = some (f, some u')) :
    f = o.Filter
    ∧ ∃ s : BsonM, blookup "$set" u' = some (.doc s)
        ∧ blookup "updated_at" s = some (.time now)
        ∧ (∀ k : String, k ≠ "$set" → blookup k u' = blookup k (o.Update.getD []))
        ∧ (blookup "$set" (o.Update.getD []) = none → s = [("updated_at", .time now)])
        ∧ (∀ s0 : BsonM, blookup "$set" (o.Update.getD []) = some (.doc s0) →
            ∀ k : String, k ≠ "updated_at" → blookup k s = blookup k s0) := by
  cases hset : blookup "$set" (o.Update.getD []) with
  | none =>
    simp only [setUpdate, hset, Option.map_some', Option.some.injEq, Prod.mk.injEq] at h
    obtain ⟨hf, hu⟩ := h
    subst hu
    refine ⟨hf.symm, [("updated_at", .time now)], ?_, by simp [blookup], ?_, fun _ => rfl, ?_⟩
    · exact blookup_bsetKey_self _ "$set" _
    · intro k hk
      exact blookup_bsetKey_other _ "$set" k _ hk
    · intro s0 hs0
      exact Option.noConfusion hs0
  | some val =>
    cases val with
    | doc s0 =>
      simp only [setUpdate, hset, Option.map_some', Option.some.injEq, Prod.mk.injEq] at h
      obtain ⟨hf, hu⟩ := h
      subst hu
      refine ⟨hf.symm, bsetKey s0 "updated_at" (.time now), ?_, ?_, ?_, ?_, ?_⟩
      · exact blookup_bsetKey_self _ "$set" _
      · exact blookup_bsetKey_self s0 "updated_at" _
      · intro k hk
        exact blookup_bsetKey_other _ "$set" k _ hk
      · intro hnone
        exact Option.noConfusion hnone
      · intro s1 hs1 k hk
        have h2 := Option.some.inj hs1
        injection h2 with h3
        subst h3
        exact blookup_bsetKey_other s0 "updated_at" k _ hk
    | null => simp [setUpdate, hset] at h
    | str s => simp [setUpdate, hset] at h
    | i64 n => simp [setUpdate, hset] at h
    | time t => simp [setUpdate, hset] at h
    | oid b => simp [setUpdate, hset] at h
    | arr l => simp [setUpdate, hset] at h

/-- Claim C1: on every `UpdateOne` and `UpdateMany` call the update stamp
runs once, after all mutators and before submission: an empty `Update` is
initialized, a missing `$set` sub-document is created holding
`updated_at = now`, and an existing `$set` sub-document receives
`updated_at = now` merged in, with every caller-supplied `$set` field
other than `updated_at` kept at its value (and the `updated_at` key
itself present, restamped); all `Update` entries other than `$set` are
untouched. -/
theorem updateStamp_spec (ms : List SetOption) (now : Nat) (f : Option BsonM) (u' : BsonM)
    (h : updateOneCall now ms = some (f, some u')) :
    updateManyCall now ms = some (f, some u')
    ∧ f = (bindOptions ms).Filter
    ∧ ∃ s : BsonM, blookup "$set" u' = some (.doc s)
        ∧ blookup "updated_at" s = some (.time now)
        ∧ (∀ k : String, k ≠ "$set" → blookup k u' = blookup k ((bindOptions ms).Update.getD []))
        ∧ (blookup "$set" ((bindOptions ms).Update.getD []) = none →
            s = [("updated_at", .time now)])
        ∧ (∀ s0 : BsonM, blookup "$set" ((bindOptions ms).Update.getD []) = some (.doc s0) →
            ∀ k : String, k ≠ "updated_at" → blookup k s = blookup k s0) := by
  exact ⟨h, setUpdate_ok now (bindOptions ms) f u' h⟩

/-- Spot check of `updateStamp_spec`: a caller-supplied `$set` field `a`
survives next to the fresh `updated_at` stamp. -/
theorem updateStamp_spec_spot :
    updateManyCall 5 [SetOption.setUpdateDoc [("$set", BVal.doc [("a", BVal.i64 1)])]]
      = some (none, some [("$set", BVal.doc [("a", BVal.i64 1), ("updated_at", BVal.time 5)])]) :=
  (updateStamp_spec [.setUpdateDoc [("$set", .doc [("a", .i64 1)])]] 5 none
      [("$set", .doc [("a", .i64 1), ("updated_at", .time 5)])] rfl).1

/-- Claim C2: `SoftDeleteOne` and `SoftDeleteMany` unconditionally
replace the entire `$set` sub-document of the bound option's `Update`
with exactly `deleted_at = now`, discarding every other caller-supplied
`$set` field, and submit the resulting `Update` to the store. -/
theorem softDelete_overwrites_set (ms : List SetOption) (now : Nat) :
    softDeleteOneCall now ms
      = ((bindOptions ms).Filter,
          some (bsetKey ((bindOptions ms).Update.getD []) "$set"
            (.doc [("deleted_at", .time now)])))
    ∧ softDeleteManyCall now ms = softDeleteOneCall now ms
    ∧ ∃ s : BsonM,
        blookup "$set" ((softDeleteOneCall now ms).2.getD []) = some (.doc s)
        ∧ s = [("deleted_at", .time now)]
        ∧ (∀ k : String, ∀ v : BVal, blookup k s = some v → k = "deleted_at" ∧ v = .time now)
        ∧ (∀ k : String, k ≠ "$set" →
            blookup k ((softDeleteOneCall now ms).2.getD [])
              = blookup k ((bindOptions ms).Update.getD [])) := by
  refine ⟨rfl, rfl, [("deleted_at", .time now)], ?_, rfl, ?_, ?_⟩
  · exact blookup_bsetKey_self _ "$set" _
  · intro k v hkv
    by_cases hdk : "deleted_at" = k
    · subst hdk
      simp [blookup] at hkv
      exact ⟨rfl, hkv.symm⟩
    · simp [blookup, hdk] at hkv
  · intro k hk
    exact blookup_bsetKey_other _ "$set" k _ hk

/-- Spot check of `softDelete_overwrites_set`: a caller-supplied `$set`
field `a` is discarded by the soft-delete stamp. -/
theorem softDelete_overwrites_set_spot :
    softDeleteOneCall 7 [SetOption.setUpdateDoc [("$set", BVal.doc [("a", BVal.i64 1)])]]
      = (none, some [("$set", BVal.doc [("deleted_at", BVal.time 7)])]) :=
  (softDelete_overwrites_set [.setUpdateDoc [("$set", .doc [("a", .i64 1)])]] 7).1.trans rfl

/-- Claim C9: when a mutator has bound `Update["$set"]` to a value that
is not a `bson.M` sub-document, the unchecked type assertion inside the
update stamp panics on `UpdateOne` and `UpdateMany` (modelled as `none`),
and the operation is total whenever every bound `$set` value is a
sub-document. -/
theorem updateStamp_panic_nondoc (ms : List SetOption) (now : Nat) (v : BVal)
    (hv : blookup "$set" ((bindOptions ms).Update.getD []) = some v)
    (hnd : ∀ s : BsonM, v ≠ .doc s) :
    updateOneCall now ms = none
    ∧ updateManyCall now ms = none
    ∧ ∀ ms' : List SetOption,
        (∀ v', blookup "$set" ((bindOptions ms').Update.getD []) = some v' →
          ∃ s : BsonM, v' = .doc s) →
        ∃ p, updateOneCall now ms' = some p := by
  have h1 : updateOneCall now ms = none := by
    cases v with
    | doc s => exact absurd rfl (hnd s)
    | null => simp [updateOneCall, setUpdate, hv]
    | str s => simp [updateOneCall, setUpdate, hv]
    | i64 n => simp [updateOneCall, setUpdate, hv]
    | time t => simp [updateOneCall, setUpdate, hv]
    | oid b => simp [updateOneCall, setUpdate, hv]
    | arr l => simp [updateOneCall, setUpdate, hv]
  refine ⟨h1, h1, ?_⟩
  intro ms' hok
  cases hset : blookup "$set" ((bindOptions ms').Update.getD []) with
  | none =>
    refine ⟨((bindOptions ms').Filter,
      some (bsetKey ((bindOptions ms').Update.getD []) "$set"
        (.doc [("updated_at", .time now)]))), ?_⟩
    simp [updateOneCall, setUpdate, hset]
  | some v' =>
    obtain ⟨s, rfl⟩ := hok v' hset
    refine ⟨((bindOptions ms').Filter,
      some (bsetKey ((bindOptions ms').Update.getD []) "$set"
        (.doc (bsetKey s "updated_at" (.time now))))), ?_⟩
    simp [updateOneCall, setUpdate, hset]

/-- Spot check of `updateStamp_panic_nondoc`: a string bound at `$set`
makes `UpdateOne` panic. -/
theorem updateStamp_panic_nondoc_spot :
    updateOneCall 0 [SetOption.setUpdateDoc [("$set", BVal.str "x")]] = none :=
  (updateStamp_panic_nondoc [.setUpdateDoc [("$set", .str "x")]] 0 (.str "x") rfl
    (fun _ h => nomatch h)).1

theorem NewObjectID_length (ts rnd ctr : Nat) : (NewObjectID ts rnd ctr).length = 12 := by
  simp [NewObjectID, natToBytes_length]

theorem insertManyDocs_props {α : Type} (seeds : Nat → Nat × Nat × Nat) (c : Clock) (k : Nat)
    (vs : List α) (r : Record α) (hr : r ∈ insertManyDocs seeds c k vs) :
    r.E.ID.length = 12 ∧ r.E.CreatedAt ≤ r.E.UpdatedAt ∧ r.E.DeletedAt = none ∧ r.V ∈ vs := by
  induction vs generalizing seeds k with
  | nil => cases hr
  | cons v vs ih =>
    simp only [insertManyDocs, List.mem_cons] at hr
    rcases hr with rfl | h
    · exact ⟨NewObjectID_length _ _ _, c.mono k (k + 1) (Nat.le_succ k), rfl,
        List.mem_cons_self v vs⟩
    · obtain ⟨h1, h2, h3, h4⟩ := ih _ _ h
      exact ⟨h1, h2, h3, by simp [h4]⟩

/-- Claim C3 counterexample: under a clock whose successive `time.Now()`
readings differ (which the monotone clock permits), the record built by
the insert path has `CreatedAt ≠ UpdatedAt`, because `newRecord` draws
two separate clock readings; the claimed equality of the two insert-time
stamps does not hold of the code. -/
theorem insert_created_ne_updated :
    (insertOneDoc 0 0 0 tickClock 0 ([] : BsonM)).E.CreatedAt
      ≠ (insertOneDoc 0 0 0 tickClock 0 ([] : BsonM)).E.UpdatedAt := by
  simp [insertOneDoc, newRecord, tickClock]

/-- Claim C3 (amended): every record submitted by `InsertOne` or
`InsertMany` carries a freshly generated 12-byte (hence non-empty)
identifier, a `CreatedAt` and an `UpdatedAt` drawn from two consecutive
clock readings — so `CreatedAt ≤ UpdatedAt`, with equality only when the
two readings coincide — an absent `DeletedAt`, and the caller's value
merged unchanged. -/
theorem insert_envelope_fresh (ts rnd ctr : Nat) (seeds : Nat → Nat × Nat × Nat)
    (c : Clock) (k k' : Nat) (v : BsonM) (vs : List BsonM) (r : Record BsonM)
    (hr : r ∈ insertManyDocs seeds c k' vs) :
    ((insertOneDoc ts rnd ctr c k v).E.ID ≠ []
      ∧ (insertOneDoc ts rnd ctr c k v).E.ID.length = 12
      ∧ (insertOneDoc ts rnd ctr c k v).E.CreatedAt = c.times k
      ∧ (insertOneDoc ts rnd ctr c k v).E.UpdatedAt = c.times (k + 1)
      ∧ (insertOneDoc ts rnd ctr c k v).E.CreatedAt ≤ (insertOneDoc ts rnd ctr c k v).E.UpdatedAt
      ∧ (insertOneDoc ts rnd ctr c k v).E.DeletedAt = none
      ∧ (insertOneDoc ts rnd ctr c k v).V = v)
    ∧ (r.E.ID ≠ [] ∧ r.E.CreatedAt ≤ r.E.UpdatedAt ∧ r.E.DeletedAt = none ∧ r.V ∈ vs) := by
  obtain ⟨h1, h2, h3, h4⟩ := insertManyDocs_props seeds c k' vs r hr
  refine ⟨⟨?_, NewObjectID_length ts rnd ctr, rfl, rfl,
      c.mono k (k + 1) (Nat.le_succ k), rfl, rfl⟩, ?_, h2, h3, h4⟩
  · intro hnil
    have hlen : (insertOneDoc ts rnd ctr c k v).E.ID.length = 12 :=
      NewObjectID_length ts rnd ctr
    rw [hnil] at hlen
    simp at hlen
  · intro hnil
    rw [hnil] at h1
    simp at h1

/-- Spot check of `insert_envelope_fresh` on concrete inserts. -/
theorem insert_envelope_fresh_spot :
    (insertOneDoc 0 0 0 tickClock 0 ([("name", BVal.str "a")] : BsonM)).E.DeletedAt = none
    ∧ (newRecord 0 0 0 tickClock 2 ([] : BsonM)).E.CreatedAt
        ≤ (newRecord 0 0 0 tickClock 2 ([] : BsonM)).E.UpdatedAt :=
  have h := insert_envelope_fresh 0 0 0 (fun _ => (0, 0, 0)) tickClock 0 2
    [("name", .str "a")] [[]] (newRecord 0 0 0 tickClock 2 ([] : BsonM))
    (by simp [insertManyDocs])
  ⟨h.1.2.2.2.2.2.1, h.2.2.1⟩

/-- Claim C7: the persisted envelope uses exactly the document field
names `_id`, `created_at`, `update_at` and `deleted_at`, with the caller
value's own fields inlined at the same document level. -/
theorem envelope_field_names (ts rnd ctr : Nat) (c : Clock) (k : Nat) (v : BsonM)
    (seeds : Nat → Nat × Nat × Nat) (k' : Nat) (vs : List BsonM) (r : Record BsonM)
    (_hr : r ∈ insertManyDocs seeds c k' vs) :
    (recordDoc (insertOneDoc ts rnd ctr c k v)).map Prod.fst
      = ["_id", "created_at", "update_at", "deleted_at"] ++ v.map Prod.fst
    ∧ (recordDoc r).map Prod.fst
      = ["_id", "created_at", "update_at", "deleted_at"] ++ r.V.map Prod.fst := by
  constructor
  · simp [recordDoc, insertOneDoc, newRecord]
  · simp [recordDoc]

/-- Spot check of `envelope_field_names` on a one-field caller value. -/
theorem envelope_field_names_spot :
    (recordDoc (insertOneDoc 0 0 0 tickClock 0 ([("name", BVal.str "a")] : BsonM))).map Prod.fst
      = ["_id", "created_at", "update_at", "deleted_at", "name"] :=
  ((envelope_field_names 0 0 0 tickClock 0 [("name", .str "a")] (fun _ => (0, 0, 0)) 0 [[]]
      (newRecord 0 0 0 tickClock 0 ([] : BsonM)) (by simp [insertManyDocs])).1).trans rfl

/-- Claim C8: a `FindOne` call whose filter matches no stored document
returns a non-nil error (the driver's no-documents decode error), not a
distinguished nil-error empty result. -/
theorem findOne_no_match_errors (docs : List BsonM) (ms : List SetOption)
    (h : ∀ d ∈ docs, docMatches (findOneCall ms) d = false) :
    (findOneResult docs ms).2 = some .errNoDocuments
    ∧ (findOneResult docs ms).2 ≠ none := by
  have hfind : storeFindOne docs (findOneCall ms) = none := by
    unfold storeFindOne
    rw [List.find?_eq_none]
    intro d hd
    simp [h d hd]
  constructor
  · simp [findOneResult, hfind, decodeSingleResult]
  · simp [findOneResult, hfind, decodeSingleResult]

/-- Spot check of `findOne_no_match_errors`: a store holding `a = 1`
queried with filter `a = 2`. -/
theorem findOne_no_match_errors_spot :
    (findOneResult [[("a", BVal.i64 1)]] [SetOption.setFilter [("a", BVal.i64 2)]]).2
      = some MgoErr.errNoDocuments :=
  (findOne_no_match_errors [[("a", .i64 1)]] [.setFilter [("a", .i64 2)]]
    (by
      intro d hd
      simp only [List.mem_singleton] at hd
      subst hd
      simp [docMatches, findOneCall, bindOptions, applyOpt, zeroOption, blookup, bvalBeq])).1

theorem processField_ok (env : Env) (pfx : String) (fs : fieldSpec)
    (h : fs.required = false) :
    ∃ s : String, processField env pfx fs = .ok s := by
  cases h2 : envLookup env pfx fs.key with
  | none => exact ⟨"", by simp [processField, h2, h]⟩
  | some v => exact ⟨v, by simp [processField, h2]⟩

/-- Claim C5 counterexample: with every environment value absent —
`ADDRS` included — configuration loading succeeds with empty-string
fields instead of failing, and `connect` proceeds to build the client
options for a network attempt (with host list `[""]`). -/
theorem config_missing_loads :
    readConfig (fun _ => none)
      = some { Addrs := "", Name := "", AuthSource := "", User := "", Password := "" }
    ∧ connectOpts (fun _ => none)
      = some { hosts := [""], connectTimeoutSecs := 5, socketTimeoutSecs := 5
             , authSource := "", username := "", password := "" } := by
  constructor <;> rfl

/-- Claim C5 (amended): none of the five `config` fields carries a
`required` tag, so configuration loading never fails — an absent value
merely loads as the empty string — and `connect` always proceeds past
configuration loading to the network attempt, with the host list split
from the (possibly empty) `Addrs`. -/
theorem readConfig_never_fails (env : Env) :
    ∃ cfg : config, readConfig env = some cfg
      ∧ connectOpts env
          = some { hosts := splitComma cfg.Addrs, connectTimeoutSecs := 5
                 , socketTimeoutSecs := 5, authSource := cfg.AuthSource
                 , username := cfg.User, password := cfg.Password } := by
  obtain ⟨a1, h1⟩ := processField_ok env "MGO" { key := "ADDRS", required := false } rfl
  obtain ⟨a2, h2⟩ := processField_ok env "MGO" { key := "NAME", required := false } rfl
  obtain ⟨a3, h3⟩ := processField_ok env "MGO" { key := "AUTH_SOURCE", required := false } rfl
  obtain ⟨a4, h4⟩ := processField_ok env "MGO" { key := "USER", required := false } rfl
  obtain ⟨a5, h5⟩ := processField_ok env "MGO" { key := "PASSWORD", required := false } rfl
  refine ⟨{ Addrs := a1, Name := a2, AuthSource := a3, User := a4, Password := a5 }, ?_, ?_⟩
  · simp [readConfig, envconfigProcess, h1, h2, h3, h4, h5, Except.toOption]
  · simp [connectOpts, readConfig, envconfigProcess, h1, h2, h3, h4, h5, Except.toOption]

end Mgo
